import Mathlib

/-!
Verification of the valora monotonic-curve decomposition engine and its
adjacent rendering components, shallowly embedded in Lean 4.

Floating-point (`f32`) values are modelled as rationals (`ℚ`): all the
arithmetic the verified properties depend on (affine interpolation,
min/max, comparison, division) is exact in this model.

Sources embedded:
- `src/amicola/src/monotonics.rs` (`Segment`, `Segment::from_link`,
  `Intersection`, the `Curve` contract);
- `src/rainier/src/raster.rs` (`Method`, `raster_path`);
- `src/src/gpu/shaders.rs` (`MAX_VORONOI_SITES`, `GpuShader`,
  `GpuVoronoi`, `Factory<Shader>::produce`, the `draw` strength loop).

The concrete `LineSegment` primitive lives in
`src/amicola/src/line_segment.rs`, which is not part of the excerpt; its
constructor and `Curve` implementation are modelled from the spec and are
marked as such in their doc comments.
-/

namespace Valora

/-- A 2D point (the repository's `V2`), coordinates modelled as `ℚ`. -/
structure V2 where
  x : ℚ
  y : ℚ
deriving DecidableEq, Repr

/-- Axis-aligned bounding box (the repository's `Bounds`):
`{min, max}` corners. -/
structure Bounds where
  min : V2
  max : V2
deriving DecidableEq, Repr

/-- A path command (the repository's `path::Segment`): `MoveTo(point)` or
`LineTo(point)`. -/
inductive PathSegment where
  | moveTo (p : V2)
  | lineTo (p : V2)
deriving DecidableEq, Repr

/-- Modelled from the spec: the concrete line primitive `LineSegment`
(its module `line_segment.rs` is not in the excerpt).  Per §3 of the
spec it holds its two endpoints and a precomputed `Bounds`. `stop` is the
second endpoint (`end` in the source, a reserved word here). -/
structure LineSegment where
  start : V2
  stop : V2
  bounds : Bounds
deriving DecidableEq, Repr

/-- Modelled from the spec: `LineSegment::new_rasterable(start, end)`.
Per §4.2 construction fails (returns `None`) exactly for a degenerate
zero-length edge (both axis spans exactly zero); otherwise it returns the
primitive with its precomputed axis-aligned bounds. -/
def LineSegment.new_rasterable (s e : V2) : Option LineSegment :=
  if s = e then none
  else some ⟨s, e, ⟨⟨min s.x e.x, min s.y e.y⟩, ⟨max s.x e.x, max s.y e.y⟩⟩⟩

/-- The monotonic-primitive dispatch wrapper `Segment` from
`monotonics.rs`: a closed variant set, currently one variant per the
source (`LineSegment`). -/
inductive Segment where
  | lineSegment (ls : LineSegment)
deriving DecidableEq, Repr

/-- The decomposer `Segment::from_link` from `monotonics.rs`: converts a link (pair of
consecutive path commands) into zero or more monotonic primitives. -/
def Segment.from_link : PathSegment × PathSegment → List Segment
  | (PathSegment.moveTo s, PathSegment.lineTo e)
  | (PathSegment.lineTo s, PathSegment.lineTo e) =>
      ((LineSegment.new_rasterable s e).map
        (fun ls => [Segment.lineSegment ls])).getD []
  | (_, PathSegment.moveTo _) => []

/-- The `Intersection` type from `monotonics.rs`: where on the excluded axis and
where along `[0, 1]` the intersection occurs. -/
structure Intersection where
  axis : ℚ
  t : ℚ
deriving DecidableEq, Repr

/-- Modelled from the spec: `Curve::sample_t` for `LineSegment`
(implementation not in the excerpt).  Per §4.1 it returns the point at
parameter `t`, `None` only if `t` is outside `[0, 1]`. -/
def LineSegment.sample_t (ls : LineSegment) (t : ℚ) : Option V2 :=
  if 0 ≤ t ∧ t ≤ 1 then
    some ⟨ls.start.x + t * (ls.stop.x - ls.start.x),
          ls.start.y + t * (ls.stop.y - ls.start.y)⟩
  else none

/-- Modelled from the spec: `Curve::sample_x` for `LineSegment`.  Per
§4.1 it returns the `(y, t)` where the primitive crosses the vertical
line at `x`, or `None` if `x` lies outside the primitive's x-bounds.
For a vertical primitive (zero x-span) the query line coincides with the
primitive and the crossing is reported at `t = 0` (in `ℚ`, division by
zero yields `0`). -/
def LineSegment.sample_x (ls : LineSegment) (x : ℚ) : Option Intersection :=
  if ls.bounds.min.x ≤ x ∧ x ≤ ls.bounds.max.x then
    let t := (x - ls.start.x) / (ls.stop.x - ls.start.x)
    some ⟨ls.start.y + t * (ls.stop.y - ls.start.y), t⟩
  else none

/-- Modelled from the spec: `Curve::sample_y` for `LineSegment`,
symmetric to `sample_x` for horizontal query lines. -/
def LineSegment.sample_y (ls : LineSegment) (y : ℚ) : Option Intersection :=
  if ls.bounds.min.y ≤ y ∧ y ≤ ls.bounds.max.y then
    let t := (y - ls.start.y) / (ls.stop.y - ls.start.y)
    some ⟨ls.start.x + t * (ls.stop.x - ls.start.x), t⟩
  else none

/-- The `Curve` dispatch on `Segment` (the `enum_dispatch` of the source):
`sample_t`. -/
def Segment.sample_t : Segment → ℚ → Option V2
  | Segment.lineSegment ls, t => ls.sample_t t

/-- The `Curve` dispatch on `Segment`: `sample_x`. -/
def Segment.sample_x : Segment → ℚ → Option Intersection
  | Segment.lineSegment ls, x => ls.sample_x x

/-- The `Curve` dispatch on `Segment`: `sample_y`. -/
def Segment.sample_y : Segment → ℚ → Option Intersection
  | Segment.lineSegment ls, y => ls.sample_y y

/-- The `Curve` dispatch on `Segment`: `bounds`. -/
def Segment.bounds : Segment → Bounds
  | Segment.lineSegment ls => ls.bounds

/-- Every primitive produced by `Segment.from_link` is a line segment
between distinct endpoints, carrying the axis-aligned box of those
endpoints as its precomputed bounds. -/
lemma from_link_shape (link : PathSegment × PathSegment) (seg : Segment)
    (hm : seg ∈ Segment.from_link link) :
    ∃ s e, s ≠ e ∧
      seg = Segment.lineSegment
        ⟨s, e, ⟨⟨min s.x e.x, min s.y e.y⟩, ⟨max s.x e.x, max s.y e.y⟩⟩⟩ := by
  obtain ⟨prev, cur⟩ := link
  cases prev <;> cases cur <;> simp [Segment.from_link] at hm
  all_goals
    rename_i s e
    rw [LineSegment.new_rasterable] at hm
    split at hm
    · simp at hm
    · rename_i hne
      simp at hm
      exact ⟨s, e, hne, hm⟩

/-- Inversion for the modelled `LineSegment.sample_t`: a `Some` answer
forces `t ∈ [0, 1]` and pins the returned point. -/
lemma sample_t_some_eq (ls : LineSegment) (t : ℚ) (p : V2)
    (h : ls.sample_t t = some p) :
    0 ≤ t ∧ t ≤ 1 ∧
      p = ⟨ls.start.x + t * (ls.stop.x - ls.start.x),
           ls.start.y + t * (ls.stop.y - ls.start.y)⟩ := by
  rw [LineSegment.sample_t] at h
  split at h
  · rename_i h0
    exact ⟨h0.1, h0.2, (Option.some.inj h).symm⟩
  · cases h

/-- An affine map with nonnegative slope is nondecreasing. -/
lemma affine_nondecreasing (a d t1 t2 : ℚ) (h12 : t1 ≤ t2) (hd : 0 ≤ d) :
    a + t1 * d ≤ a + t2 * d := by nlinarith

/-- C1: every primitive produced by decomposition is monotonic in both
axes: over all parameter pairs `t1 < t2` in the domain, the sampled `y`
coordinates are consistently ordered (always `≤` or always `≥`, no sign
change), and likewise the `x` coordinates. -/
theorem from_link_monotonic (link : PathSegment × PathSegment)
    (seg : Segment) (hm : seg ∈ Segment.from_link link) :
    ((∀ t1 t2 p1 p2, t1 < t2 → seg.sample_t t1 = some p1 →
        seg.sample_t t2 = some p2 → p1.y ≤ p2.y) ∨
     (∀ t1 t2 p1 p2, t1 < t2 → seg.sample_t t1 = some p1 →
        seg.sample_t t2 = some p2 → p2.y ≤ p1.y)) ∧
    ((∀ t1 t2 p1 p2, t1 < t2 → seg.sample_t t1 = some p1 →
        seg.sample_t t2 = some p2 → p1.x ≤ p2.x) ∨
     (∀ t1 t2 p1 p2, t1 < t2 → seg.sample_t t1 = some p1 →
        seg.sample_t t2 = some p2 → p2.x ≤ p1.x)) := by
  obtain ⟨ls⟩ := seg
  constructor
  · rcases le_total ls.start.y ls.stop.y with h | h
    · left
      intro t1 t2 p1 p2 h12 hp1 hp2
      obtain ⟨-, -, rfl⟩ := sample_t_some_eq ls t1 p1 hp1
      obtain ⟨-, -, rfl⟩ := sample_t_some_eq ls t2 p2 hp2
      exact affine_nondecreasing _ _ _ _ h12.le (by linarith)
    · right
      intro t1 t2 p1 p2 h12 hp1 hp2
      obtain ⟨-, -, rfl⟩ := sample_t_some_eq ls t1 p1 hp1
      obtain ⟨-, -, rfl⟩ := sample_t_some_eq ls t2 p2 hp2
      have := affine_nondecreasing ls.start.y (ls.start.y - ls.stop.y)
        t1 t2 h12.le (by linarith)
      show ls.start.y + t2 * (ls.stop.y - ls.start.y) ≤
        ls.start.y + t1 * (ls.stop.y - ls.start.y)
      nlinarith
  · rcases le_total ls.start.x ls.stop.x with h | h
    · left
      intro t1 t2 p1 p2 h12 hp1 hp2
      obtain ⟨-, -, rfl⟩ := sample_t_some_eq ls t1 p1 hp1
      obtain ⟨-, -, rfl⟩ := sample_t_some_eq ls t2 p2 hp2
      exact affine_nondecreasing _ _ _ _ h12.le (by linarith)
    · right
      intro t1 t2 p1 p2 h12 hp1 hp2
      obtain ⟨-, -, rfl⟩ := sample_t_some_eq ls t1 p1 hp1
      obtain ⟨-, -, rfl⟩ := sample_t_some_eq ls t2 p2 hp2
      have := affine_nondecreasing ls.start.x (ls.start.x - ls.stop.x)
        t1 t2 h12.le (by linarith)
      show ls.start.x + t2 * (ls.stop.x - ls.start.x) ≤
        ls.start.x + t1 * (ls.stop.x - ls.start.x)
      nlinarith

/-- Witness for C1 at the link `MoveTo (0,0) → LineTo (2,1)`. -/
theorem from_link_monotonic_witness :
    ((∀ t1 t2 p1 p2, t1 < t2 →
        (Segment.lineSegment
          ⟨⟨0, 0⟩, ⟨2, 1⟩, ⟨⟨0, 0⟩, ⟨2, 1⟩⟩⟩).sample_t t1 = some p1 →
        (Segment.lineSegment
          ⟨⟨0, 0⟩, ⟨2, 1⟩, ⟨⟨0, 0⟩, ⟨2, 1⟩⟩⟩).sample_t t2 = some p2 →
        p1.y ≤ p2.y) ∨
     (∀ t1 t2 p1 p2, t1 < t2 →
        (Segment.lineSegment
          ⟨⟨0, 0⟩, ⟨2, 1⟩, ⟨⟨0, 0⟩, ⟨2, 1⟩⟩⟩).sample_t t1 = some p1 →
        (Segment.lineSegment
          ⟨⟨0, 0⟩, ⟨2, 1⟩, ⟨⟨0, 0⟩, ⟨2, 1⟩⟩⟩).sample_t t2 = some p2 →
        p2.y ≤ p1.y)) ∧
    ((∀ t1 t2 p1 p2, t1 < t2 →
        (Segment.lineSegment
          ⟨⟨0, 0⟩, ⟨2, 1⟩, ⟨⟨0, 0⟩, ⟨2, 1⟩⟩⟩).sample_t t1 = some p1 →
        (Segment.lineSegment
          ⟨⟨0, 0⟩, ⟨2, 1⟩, ⟨⟨0, 0⟩, ⟨2, 1⟩⟩⟩).sample_t t2 = some p2 →
        p1.x ≤ p2.x) ∨
     (∀ t1 t2 p1 p2, t1 < t2 →
        (Segment.lineSegment
          ⟨⟨0, 0⟩, ⟨2, 1⟩, ⟨⟨0, 0⟩, ⟨2, 1⟩⟩⟩).sample_t t1 = some p1 →
        (Segment.lineSegment
          ⟨⟨0, 0⟩, ⟨2, 1⟩, ⟨⟨0, 0⟩, ⟨2, 1⟩⟩⟩).sample_t t2 = some p2 →
        p2.x ≤ p1.x)) :=
  from_link_monotonic
    (PathSegment.moveTo ⟨0, 0⟩, PathSegment.lineTo ⟨2, 1⟩)
    (Segment.lineSegment ⟨⟨0, 0⟩, ⟨2, 1⟩, ⟨⟨0, 0⟩, ⟨2, 1⟩⟩⟩)
    (by simp [Segment.from_link, LineSegment.new_rasterable])

/-- C2: for every produced primitive and every `x` within its bounds,
`sample_x x` answers `Some` intersection, and resampling at the returned
parameter round-trips exactly: `sample_t result.t` is a point whose `x`
coordinate equals the queried `x` (exact in the rational model, hence
within any floating-point tolerance). -/
theorem sample_x_roundtrip (link : PathSegment × PathSegment)
    (seg : Segment) (hm : seg ∈ Segment.from_link link) (x : ℚ)
    (hx : seg.bounds.min.x ≤ x ∧ x ≤ seg.bounds.max.x) :
    ∃ i p, seg.sample_x x = some i ∧
      seg.sample_t i.t = some p ∧ p.x = x := by
  obtain ⟨s, e, hne, rfl⟩ := from_link_shape link seg hm
  simp only [Segment.bounds] at hx
  obtain ⟨hx1, hx2⟩ := hx
  by_cases h0 : e.x - s.x = 0
  · have hex : e.x = s.x := by linarith [sub_eq_zero.mp h0]
    have hxs : x = s.x := by
      have h1 : min s.x e.x = s.x := by rw [hex, min_self]
      have h2 : max s.x e.x = s.x := by rw [hex, max_self]
      rw [h1] at hx1
      rw [h2] at hx2
      linarith
    refine ⟨⟨s.y + (x - s.x) / (e.x - s.x) * (e.y - s.y),
             (x - s.x) / (e.x - s.x)⟩,
            ⟨s.x + (x - s.x) / (e.x - s.x) * (e.x - s.x),
             s.y + (x - s.x) / (e.x - s.x) * (e.y - s.y)⟩, ?_, ?_, ?_⟩
    · rw [Segment.sample_x, LineSegment.sample_x, if_pos ⟨hx1, hx2⟩]
    · rw [Segment.sample_t, LineSegment.sample_t, if_pos]
      rw [h0, div_zero]
      norm_num
    · rw [h0, div_zero, hxs]
      ring
  · have ht01 : 0 ≤ (x - s.x) / (e.x - s.x) ∧
        (x - s.x) / (e.x - s.x) ≤ 1 := by
      rcases lt_or_gt_of_ne h0 with hneg | hpos
      · have hes : e.x ≤ s.x := by linarith
        have h1 : min s.x e.x = e.x := min_eq_right hes
        have h2 : max s.x e.x = s.x := max_eq_left hes
        rw [h1] at hx1
        rw [h2] at hx2
        constructor
        · rw [div_nonneg_iff]
          right
          exact ⟨by linarith, hneg.le⟩
        · rw [div_le_one_iff]
          right; right
          exact ⟨hneg, by linarith⟩
      · have hse : s.x ≤ e.x := by linarith
        have h1 : min s.x e.x = s.x := min_eq_left hse
        have h2 : max s.x e.x = e.x := max_eq_right hse
        rw [h1] at hx1
        rw [h2] at hx2
        constructor
        · exact div_nonneg (by linarith) hpos.le
        · rw [div_le_one hpos]
          linarith
    refine ⟨⟨s.y + (x - s.x) / (e.x - s.x) * (e.y - s.y),
             (x - s.x) / (e.x - s.x)⟩,
            ⟨s.x + (x - s.x) / (e.x - s.x) * (e.x - s.x),
             s.y + (x - s.x) / (e.x - s.x) * (e.y - s.y)⟩, ?_, ?_, ?_⟩
    · rw [Segment.sample_x, LineSegment.sample_x, if_pos ⟨hx1, hx2⟩]
    · rw [Segment.sample_t, LineSegment.sample_t, if_pos ht01]
    · rw [div_mul_cancel₀ _ h0]
      ring

/-- Witness for C2 at the link `MoveTo (0,0) → LineTo (2,1)` and query
`x = 1`. -/
theorem sample_x_roundtrip_witness :
    ∃ i p,
      (Segment.lineSegment
        ⟨⟨0, 0⟩, ⟨2, 1⟩, ⟨⟨0, 0⟩, ⟨2, 1⟩⟩⟩).sample_x 1 = some i ∧
      (Segment.lineSegment
        ⟨⟨0, 0⟩, ⟨2, 1⟩, ⟨⟨0, 0⟩, ⟨2, 1⟩⟩⟩).sample_t i.t = some p ∧
      p.x = 1 :=
  sample_x_roundtrip
    (PathSegment.moveTo ⟨0, 0⟩, PathSegment.lineTo ⟨2, 1⟩)
    (Segment.lineSegment ⟨⟨0, 0⟩, ⟨2, 1⟩, ⟨⟨0, 0⟩, ⟨2, 1⟩⟩⟩)
    (by simp [Segment.from_link, LineSegment.new_rasterable])
    1 (by norm_num [Segment.bounds])

/-- The rasterization method from `raster.rs`: `Fill`, or
`Stroke(thickness)`. -/
inductive Method where
  | fill
  | stroke (thickness : ℚ)
deriving DecidableEq, Repr

/-- The explicit edges of a subpath: one edge per pair of consecutive
vertices, in traversal order. -/
def consecutiveEdges : List V2 → List (V2 × V2)
  | [] => []
  | [_] => []
  | a :: b :: rest => (a, b) :: consecutiveEdges (b :: rest)

/-- Modelled from the spec: the closing edge a fill tessellation assumes,
"an edge from the last to the first vertex" (`Method::Fill` doc comment
in `raster.rs`; spec §4.4/§6).  Subpaths with fewer than two vertices
have no edge to close. -/
def closingEdge : List V2 → List (V2 × V2)
  | [] => []
  | [_] => []
  | a :: b :: rest => [((b :: rest).getLast (List.cons_ne_nil b rest), a)]

/-- Modelled from the spec: the edge set a tessellation pass works on
for one subpath, per `raster_path` and the `Method` doc comments in
`raster.rs` (the tessellators themselves live in the external `lyon`
crates): `Fill` auto-closes each subpath by assuming the closing edge,
`Stroke` leaves the path open and assumes no edge between the last and
first vertex. -/
def tessEdges : Method → List V2 → List (V2 × V2)
  | Method.fill, sp => consecutiveEdges sp ++ closingEdge sp
  | Method.stroke _, sp => consecutiveEdges sp

/-- A subpath with `n` vertices has `n - 1` explicit consecutive
edges. -/
lemma consecutiveEdges_length (sp : List V2) :
    (consecutiveEdges sp).length = sp.length - 1 := by
  induction sp with
  | nil => rfl
  | cons a rest ih =>
    cases rest with
    | nil => rfl
    | cons b r => simp [consecutiveEdges, ih]

/-- C7: on any subpath with at least two vertices, the `Fill` method's
edge set is the explicit consecutive edges plus exactly one synthesized
closing edge from the last vertex back to the first (`n` edges in
total), while `Stroke` keeps precisely the explicit consecutive edges
(`n - 1` edges) and inserts no closing edge. -/
theorem fill_closes_stroke_does_not (a b : V2) (rest : List V2) (w : ℚ) :
    tessEdges Method.fill (a :: b :: rest) =
      consecutiveEdges (a :: b :: rest) ++
        [((b :: rest).getLast (List.cons_ne_nil b rest), a)] ∧
    tessEdges (Method.stroke w) (a :: b :: rest) =
      consecutiveEdges (a :: b :: rest) ∧
    (tessEdges Method.fill (a :: b :: rest)).length =
      (a :: b :: rest).length ∧
    (tessEdges (Method.stroke w) (a :: b :: rest)).length =
      (a :: b :: rest).length - 1 := by
  refine ⟨rfl, rfl, ?_, ?_⟩
  · simp [tessEdges, closingEdge, consecutiveEdges, consecutiveEdges_length]
  · simp [tessEdges, consecutiveEdges, consecutiveEdges_length]

/-- RGBA color vector (the repository's `V4`). -/
structure V4 where
  x : ℚ
  y : ℚ
  z : ℚ
  w : ℚ
deriving DecidableEq, Repr

/-- A GPU vertex from `raster.rs`: position and color. -/
structure GpuVertex where
  vpos : ℚ × ℚ
  vcol : ℚ × ℚ × ℚ × ℚ
deriving DecidableEq, Repr

/-- The tessellator's output buffers (`VertexBuffers<_, u32>` in
`raster.rs`): vertex positions and triangle indices. -/
structure VertexBuffers where
  vertices : List (ℚ × ℚ)
  indices : List ℕ
deriving DecidableEq, Repr

/-- The observable outcome of a Rust function that may panic: either a
panic with a message, or a normal return of its `Result` value. -/
inductive RasterOutcome (α : Type) where
  | panics (msg : String)
  | returns (val : Except String α)

/-- The function `raster_path` from `raster.rs`.  The external lyon tessellation call
is abstracted as the oracle `tessellate`, giving the buffers it fills or
the tessellation error; everything after that call is embedded from the
source: the `Fill` branch panics on a tessellation error
(`panic!("Tessellation failed: ...")`) and the `Stroke` branch panics
via `.expect("TODO: wrap error")`, while both branches wrap the mapped
vertex/index buffers in `Ok` on success. -/
def raster_path (tessellate : Method → Except String VertexBuffers)
    (method : Method) (color : V4) :
    RasterOutcome (List GpuVertex × List ℕ) :=
  match method with
  | Method.fill =>
    match tessellate Method.fill with
    | Except.error e => RasterOutcome.panics ("Tessellation failed: " ++ e)
    | Except.ok buffers =>
        RasterOutcome.returns (Except.ok
          (buffers.vertices.map
            (fun v => ⟨v, (color.x, color.y, color.z, color.w)⟩),
           buffers.indices))
  | Method.stroke thickness =>
    match tessellate (Method.stroke thickness) with
    | Except.error _ => RasterOutcome.panics "TODO: wrap error"
    | Except.ok buffers =>
        RasterOutcome.returns (Except.ok
          (buffers.vertices.map
            (fun v => ⟨v, (color.x, color.y, color.z, color.w)⟩),
           buffers.indices))

/-- C9: `raster_path` never returns an `Err` value: for every method,
color and tessellation outcome, it either panics (tessellation failure)
or returns `Ok`; the `Result` return type's error case is unreachable. -/
theorem raster_path_never_err
    (tessellate : Method → Except String VertexBuffers)
    (method : Method) (color : V4) :
    (∃ msg, raster_path tessellate method color =
      RasterOutcome.panics msg) ∨
    (∃ v, raster_path tessellate method color =
      RasterOutcome.returns (Except.ok v)) := by
  cases method with
  | fill =>
    rcases htess : tessellate Method.fill with e | buffers <;>
      simp [raster_path, htess]
  | stroke thickness =>
    rcases htess : tessellate (Method.stroke thickness) with e | buffers <;>
      simp [raster_path, htess]

/-- The constant `MAX_VORONOI_SITES` from `shaders.rs`. -/
def MAX_VORONOI_SITES : ℕ := 1024

/-- A tweened animation value (the `tween` crate's `Tween`), observed
only through `.tween(frame)`: modelled as that frame-indexed value. -/
structure Tween where
  tween : ℕ → ℚ

instance : Inhabited Tween := ⟨⟨fun _ => 0⟩⟩

/-- An alpha-carrying color (the `palette` crate's `Colora`), observed
through its channels. -/
structure Colora where
  alpha : ℚ
  red : ℚ
  green : ℚ
  blue : ℚ
deriving DecidableEq, Repr

/-- Premultiplied channels of a `Colora`: each color channel scaled by
alpha. -/
def Colora.into_premultiplied (c : Colora) : ℚ × ℚ × ℚ :=
  (c.red * c.alpha, c.green * c.alpha, c.blue * c.alpha)

/-- The `VoronoiSite` type from `shaders.rs`. -/
structure VoronoiSite where
  strength : Tween
  color : Colora
  site : V2

/-- The `Shader` specification enum from `shaders.rs`; the texture image
payload is abstracted as its raw bytes. -/
inductive Shader where
  | default
  | texture (img : List ℕ)
  | voronoi (sites : List VoronoiSite)

/-- The `GpuVoronoi` type from `shaders.rs`; the three uniform buffers are
modelled by their contents (index-to-entry maps). -/
structure GpuVoronoi where
  positions : ℕ → ℚ × ℚ
  strengths_buffer : ℕ → ℚ
  strengths : List Tween
  colors : ℕ → ℚ × ℚ × ℚ × ℚ
  site_count : ℕ

/-- The `GpuShader` enum from `shaders.rs`. -/
inductive GpuShader where
  | default
  | texture (img : List ℕ)
  | voronoi (gv : GpuVoronoi)

/-- One GPU resource allocation performed by `produce`. -/
inductive GpuAlloc where
  | texture2d
  | uniformBuffer
deriving DecidableEq, Repr

/-- Fixed-size-array write `arr[i] = v`, on arrays modelled as
index-to-entry maps. -/
def writeAt {α : Type} (f : ℕ → α) (i : ℕ) (v : α) : ℕ → α :=
  fun j => if j = i then v else f j

/-- One iteration of `produce`'s Voronoi site loop in `shaders.rs`:
writes `colors[i]` (premultiplied at alpha 1, with the site's own alpha
kept in the fourth channel), writes `positions[i]` (site scaled by the
framebuffer dimensions), and pushes the site's strength tween. -/
def voronoiWrite (height width : ℚ)
    (acc : (ℕ → ℚ × ℚ × ℚ × ℚ) × (ℕ → ℚ × ℚ) × List Tween)
    (entry : ℕ × VoronoiSite) :
    (ℕ → ℚ × ℚ × ℚ × ℚ) × (ℕ → ℚ × ℚ) × List Tween :=
  let cp := Colora.into_premultiplied
    ⟨1, entry.2.color.red, entry.2.color.green, entry.2.color.blue⟩
  (writeAt acc.1 entry.1 (cp.1, cp.2.1, cp.2.2, entry.2.color.alpha),
   writeAt acc.2.1 entry.1
     (entry.2.site.x * width, entry.2.site.y * height),
   acc.2.2 ++ [entry.2.strength])

/-- The factory `Factory<Shader>::produce` for `GpuShader` from `shaders.rs`.
The GPU handle is abstracted to the framebuffer dimensions it supplies
(destructured `(height, width)` as in the source); GPU resource
creation (`Texture2d::new`, `UniformBuffer::new`) is recorded in the
returned allocation list, in call order.  The Voronoi branch rejects
more than `MAX_VORONOI_SITES` sites before allocating anything. -/
def produce (spec : Shader) (height width : ℚ) :
    List GpuAlloc × Except String GpuShader :=
  match spec with
  | Shader.default => ([], Except.ok GpuShader.default)
  | Shader.texture img =>
      ([GpuAlloc.texture2d], Except.ok (GpuShader.texture img))
  | Shader.voronoi sites =>
    if sites.length > MAX_VORONOI_SITES then
      ([], Except.error "at most 1024 sites are supported")
    else
      let init : (ℕ → ℚ × ℚ × ℚ × ℚ) × (ℕ → ℚ × ℚ) × List Tween :=
        (fun _ => (0, 0, 0, 0), fun _ => (0, 0), [])
      let built := sites.enum.foldl (voronoiWrite height width) init
      ([GpuAlloc.uniformBuffer, GpuAlloc.uniformBuffer,
        GpuAlloc.uniformBuffer],
       Except.ok (GpuShader.voronoi
         ⟨built.2.1, fun _ => 0, built.2.2, built.1, sites.length⟩))

/-- The strengths buffer `GpuShader::draw` writes for a Voronoi shader:
a zero-initialized array whose first `site_count` entries are
overwritten with the tweened strengths, per the loop in `shaders.rs`. -/
def draw_strengths (gv : GpuVoronoi) (frame : ℕ) : ℕ → ℚ :=
  (List.range gv.site_count).foldl
    (fun acc i => writeAt acc i ((gv.strengths.getD i default).tween frame))
    (fun _ => 0)

/-- C8: a Voronoi spec with more than `MAX_VORONOI_SITES` sites makes
`produce` return the validation error to the caller with no GPU
resource (texture or uniform buffer) allocated. -/
theorem produce_voronoi_overflow (sites : List VoronoiSite)
    (height width : ℚ) (h : MAX_VORONOI_SITES < sites.length) :
    produce (Shader.voronoi sites) height width =
      ([], Except.error "at most 1024 sites are supported") := by
  simp only [produce, if_pos h]

/-- Witness for C8: 1025 identical sites are rejected with no
allocation. -/
theorem produce_voronoi_overflow_witness :
    produce
      (Shader.voronoi
        (List.replicate 1025 ⟨⟨fun _ => 3⟩, ⟨1, 2, 3, 4⟩, ⟨5, 7⟩⟩)) 1 1 =
      ([], Except.error "at most 1024 sites are supported") :=
  produce_voronoi_overflow _ 1 1
    (by simp only [List.length_replicate, MAX_VORONOI_SITES]; omega)

/-- The strengths list built by `produce`'s site loop is exactly the
sites' strength tweens, in order. -/
lemma voronoiWrite_foldl_strengths (height width : ℚ)
    (l : List (ℕ × VoronoiSite))
    (acc : (ℕ → ℚ × ℚ × ℚ × ℚ) × (ℕ → ℚ × ℚ) × List Tween) :
    (l.foldl (voronoiWrite height width) acc).2.2 =
      acc.2.2 ++ l.map (fun entry => entry.2.strength) := by
  induction l generalizing acc with
  | nil => simp
  | cons e t ih => simp [voronoiWrite, ih]

/-- Folding index-writes over `range n` yields the written value below
`n` and the initial entry elsewhere. -/
lemma range_foldl_writeAt (g : ℕ → ℚ) (f0 : ℕ → ℚ) (n j : ℕ) :
    ((List.range n).foldl (fun acc i => writeAt acc i (g i)) f0) j =
      if j < n then g j else f0 j := by
  induction n with
  | zero => simp
  | succ n ih =>
    rw [List.range_succ, List.foldl_append]
    simp only [List.foldl_cons, List.foldl_nil, writeAt]
    by_cases hj : j = n
    · subst hj
      simp
    · rw [if_neg hj, ih]
      rcases Nat.lt_trichotomy j n with h | h | h
      · rw [if_pos h, if_pos (Nat.lt_succ_of_lt h)]
      · exact absurd h hj
      · rw [if_neg (by omega), if_neg (by omega)]

/-- C10: every `GpuVoronoi` built by `produce` has `site_count` equal to
the length of its strengths vector and at most `MAX_VORONOI_SITES`;
consequently the buffer `draw` writes holds the tweened strength for
each of the first `site_count` indices and `0.0` everywhere else. -/
theorem produce_voronoi_invariant (sites : List VoronoiSite)
    (height width : ℚ) (allocs : List GpuAlloc) (gv : GpuVoronoi)
    (h : produce (Shader.voronoi sites) height width =
      (allocs, Except.ok (GpuShader.voronoi gv))) :
    gv.site_count = gv.strengths.length ∧
    gv.site_count ≤ MAX_VORONOI_SITES ∧
    ∀ frame i, draw_strengths gv frame i =
      if i < gv.site_count then
        (gv.strengths.getD i default).tween frame
      else 0 := by
  rw [produce] at h
  split at h
  · exact absurd (congrArg Prod.snd h) (by simp)
  · rename_i hle
    obtain ⟨-, h2⟩ := Prod.mk.injEq .. ▸ h
    obtain rfl := (GpuShader.voronoi.injEq .. ▸ Except.ok.injEq .. ▸ h2)
    refine ⟨?_, le_of_not_lt hle, ?_⟩
    · simp [voronoiWrite_foldl_strengths]
    · intro frame i
      exact range_foldl_writeAt _ _ _ i

/-- Witness for C10: `produce` on a single concrete site. -/
theorem produce_voronoi_invariant_witness :
    (⟨writeAt (fun _ => (0, 0)) 0 (5 * 1, 7 * 1),
      fun _ => 0,
      [⟨fun _ => 3⟩],
      writeAt (fun _ => (0, 0, 0, 0)) 0 (2 * 1, 3 * 1, 4 * 1, 1),
      1⟩ : GpuVoronoi).site_count =
        ([⟨fun _ => 3⟩] : List Tween).length ∧
    (1 : ℕ) ≤ MAX_VORONOI_SITES ∧
    ∀ frame i,
      draw_strengths
        ⟨writeAt (fun _ => (0, 0)) 0 (5 * 1, 7 * 1),
         fun _ => 0,
         [⟨fun _ => 3⟩],
         writeAt (fun _ => (0, 0, 0, 0)) 0 (2 * 1, 3 * 1, 4 * 1, 1),
         1⟩ frame i =
      if i < 1 then
        (([⟨fun _ => 3⟩] : List Tween).getD i default).tween frame
      else 0 :=
  produce_voronoi_invariant
    [⟨⟨fun _ => 3⟩, ⟨1, 2, 3, 4⟩, ⟨5, 7⟩⟩] 1 1
    [GpuAlloc.uniformBuffer, GpuAlloc.uniformBuffer,
     GpuAlloc.uniformBuffer]
    ⟨writeAt (fun _ => (0, 0)) 0 (5 * 1, 7 * 1),
     fun _ => 0,
     [⟨fun _ => 3⟩],
     writeAt (fun _ => (0, 0, 0, 0)) 0 (2 * 1, 3 * 1, 4 * 1, 1),
     1⟩ rfl

/-- C3: a link whose current (second) command is `MoveTo` decomposes to
the empty primitive list, whatever the previous command is. -/
theorem from_link_moveTo_empty (prev : PathSegment) (p : V2) :
    Segment.from_link (prev, PathSegment.moveTo p) = [] := by
  cases prev <;> rfl

/-- C4: a link whose start and end points coincide (a zero-length edge)
decomposes to the empty primitive list, for both link shapes that could
produce an edge; the degenerate edge is dropped, no error is raised. -/
theorem from_link_degenerate_empty (p : V2) :
    Segment.from_link (PathSegment.moveTo p, PathSegment.lineTo p) = [] ∧
    Segment.from_link (PathSegment.lineTo p, PathSegment.lineTo p) = [] := by
  constructor <;>
    simp [Segment.from_link, LineSegment.new_rasterable]

/-- C5: over the current straight-edge-only primitive set, decomposition
yields at most one primitive per link. -/
theorem from_link_length_le_one (link : PathSegment × PathSegment) :
    (Segment.from_link link).length ≤ 1 := by
  obtain ⟨prev, cur⟩ := link
  cases prev <;> cases cur <;>
    first
    | rfl
    | · rename_i s e
        simp only [Segment.from_link]
        cases LineSegment.new_rasterable s e <;> simp

/-- C6: for every produced primitive, `sample_t t` is `Some` point
exactly when `t ∈ [0, 1]` and `None` exactly when `t` is outside
`[0, 1]`; the query is total, an out-of-domain query never faults. -/
theorem sample_t_domain (link : PathSegment × PathSegment) (seg : Segment)
    (hm : seg ∈ Segment.from_link link) (t : ℚ) :
    ((0 ≤ t ∧ t ≤ 1) → ∃ p, seg.sample_t t = some p) ∧
    (¬(0 ≤ t ∧ t ≤ 1) → seg.sample_t t = none) := by
  obtain ⟨ls⟩ := seg
  constructor <;> intro h <;>
    simp [Segment.sample_t, LineSegment.sample_t, h]

/-- Witness for C6 at the link `MoveTo (0,0) → LineTo (2,1)` and
`t = 1/2`. -/
theorem sample_t_domain_witness :
    ∃ p, (Segment.lineSegment
      ⟨⟨0, 0⟩, ⟨2, 1⟩, ⟨⟨0, 0⟩, ⟨2, 1⟩⟩⟩).sample_t (1 / 2) = some p :=
  (sample_t_domain
    (PathSegment.moveTo ⟨0, 0⟩, PathSegment.lineTo ⟨2, 1⟩)
    (Segment.lineSegment ⟨⟨0, 0⟩, ⟨2, 1⟩, ⟨⟨0, 0⟩, ⟨2, 1⟩⟩⟩)
    (by simp [Segment.from_link, LineSegment.new_rasterable])
    (1 / 2)).1 (by norm_num)

end Valora
